import Mathlib

/-!
Verification of the filename/heading synchronization plugin.

The source is a TypeScript plugin for a note-taking host application.  Its
textual data is modelled shallowly: a JavaScript string is a `List Char`
(UTF-16 subtleties outside the Basic Multilingual Plane do not arise in any
statement below), a file is the record of fields the plugin reads, and each
handler is embedded as the pure transformation it performs between the host
read and the host write/rename call.
-/

/-- Shorthand: the character list underlying a string literal. -/
def str (s : String) : List Char := s.data

/-! ## JavaScript string primitives used by the plugin -/

/-- The JavaScript whitespace set recognized by `String.prototype.trim`:
ECMA-262 WhiteSpace (TAB, VT, FF, SP, NBSP, ZWNBSP and the Unicode
space-separator category) together with LineTerminator (LF, CR, LS, PS). -/
def isJsWhitespace (c : Char) : Bool :=
  c = ' ' ∨ c = '\t' ∨ c = '\n' ∨ c = '\r' ∨ c = '\x0b' ∨ c = '\x0c' ∨
  c = ' ' ∨ c = '﻿' ∨ c = ' ' ∨ c = ' ' ∨ c = ' ' ∨
  c = ' ' ∨ c = ' ' ∨ c = ' ' ∨ c = ' ' ∨ c = ' ' ∨
  c = ' ' ∨ c = ' ' ∨ c = ' ' ∨ c = ' ' ∨ c = ' ' ∨
  c = ' ' ∨ c = ' ' ∨ c = ' ' ∨ c = '　'

/-- Remove trailing JavaScript whitespace: reverse, strip the leading
whitespace run, reverse back. -/
def dropTrailWs (l : List Char) : List Char :=
  (l.reverse.dropWhile isJsWhitespace).reverse

/-- JavaScript `String.prototype.trim`: strip leading and trailing
whitespace. -/
def jsTrim (l : List Char) : List Char :=
  dropTrailWs (l.dropWhile isJsWhitespace)

/-- JavaScript `String.prototype.toUpperCase` on a single character,
modelled for the ASCII range (every concrete input below is ASCII). -/
def jsToUpperChar (c : Char) : Char := c.toUpper

/-- JavaScript `String.prototype.toLowerCase` on a single character,
modelled for the ASCII range (every concrete input below is ASCII). -/
def jsToLowerChar (c : Char) : Char := c.toLower

/-! ## Regular expressions

A compiled JavaScript regular expression is kept abstract: just its pattern
source and flags.  The semantic operations the plugin performs on compiled
patterns (`.replace(r, "")` and `.exec`) are modelled by an engine record,
so that theorems about arbitrary user-configured patterns quantify over the
engine, while concrete scenarios instantiate it at the two patterns whose
JavaScript behaviour is modelled exactly. -/

/-- A compiled JavaScript `RegExp`: pattern source and flags. -/
structure JsRegExp where
  pattern : List Char
  flags : List Char
deriving DecidableEq, Repr

/-- The pattern source of the sentinel regular expression `$^` that
`deserializeRegExp` falls back to. -/
def dollarHat : List Char := ['$', '^']

/-- The operations the plugin performs through the JavaScript regex
subsystem, abstracted.  `compiles pat flags` models whether the constructor
`new RegExp(pat, flags)` succeeds (it throws a SyntaxError for an invalid
pattern or invalid flags); `replaceAll r s` models `s.replace(r, "")` for a
global-flagged compiled `r`; `hasMatch r s` models `r.exec(s)` returning
non-null. -/
structure RegexEngine where
  compiles : List Char → List Char → Bool
  replaceAll : JsRegExp → List Char → List Char
  hasMatch : JsRegExp → List Char → Bool

/-- The JavaScript engine at the points any concrete statement below
evaluates it.  `hasMatch` is exact for the two patterns concretely tested:
the empty pattern (source `""`, displayed `(?:)`), which has an
empty-string match at every position, and the sentinel `$^`, whose sole
possible match is the empty match at position 0 of the empty input (`$`
asserts end of input, `^` asserts its start, and without the multiline flag
both hold only there).  Replacing empty matches with `""` leaves the input
unchanged, so `replaceAll` is the identity for both patterns.  `compiles`
is stipulated true, which is exact at every pair this development compiles
concretely (the empty pattern and plain literal patterns such as `abc`,
`a/b` and the default excalidraw entry, each with valid flags).  Theorems
about other patterns, and every theorem exercising a compile failure, are
stated over an arbitrary `RegexEngine` instead of this one. -/
def jsEngine : RegexEngine where
  compiles := fun _ _ => true
  replaceAll := fun _ s => s
  hasMatch := fun r s =>
    if r.pattern = [] then true
    else if r.pattern = dollarHat then s.isEmpty
    else false

/-! ## deserializeRegExp

Source:
  function deserializeRegExp(regExpString) (with) match =
    regExpString.match(of the literal regex  backslash-slash (.*)? backslash-slash ([a-z]*) );
  if match then new RegExp(match[1], match[2])
  else (new Notice(...); new RegExp("$^", "g"))

The literal regex is unanchored; `String.prototype.match` yields its
leftmost match.  An attempt at position i succeeds when the character there
is a slash and a further slash is reachable without crossing a line
terminator (`.` matches every character except the four ECMA-262
LineTerminators); the greedy `(.*)?` then captures up to the LAST such
slash, and `([a-z]*)` captures the maximal run of lowercase ASCII letters
after it.  Since `.*` can match the empty string, the optional group always
participates, so match[1] is never undefined.  On a shape match the call
then runs `new RegExp(match[1], match[2])`, which throws a SyntaxError when
the captured pattern or flags do not compile; that throw escapes
`deserializeRegExp`, modelled as `none`. -/

/-- Lowercase ASCII letter: the character class `[a-z]` of the flags
capture. -/
def isFlagChar (c : Char) : Bool := 'a' ≤ c ∧ c ≤ 'z'

/-- ECMA-262 LineTerminator: the four characters `.` does not match
(LF, CR, LINE SEPARATOR, PARAGRAPH SEPARATOR). -/
def isLineTerminator (c : Char) : Bool :=
  c = '\n' ∨ c = '\r' ∨ c = '\u2028' ∨ c = '\u2029'

/-- Split a character list around its LAST slash: `some (a, b)` with
`l = a ++ slash :: b` and no slash in `b`, or `none` when `l` has no
slash.  This is where the greedy `(.*)?` followed by a slash ends up after
backtracking. -/
def splitAtLastSlash : List Char → Option (List Char × List Char)
  | [] => none
  | c :: rest =>
    match splitAtLastSlash rest with
    | some (a, b) => some (c :: a, b)
    | none => if c = '/' then some ([], rest) else none

/-- Leftmost match of the deserializer regex: scan for a slash from which
an attempt succeeds; on success return (pattern capture, flags capture). -/
def findSlashMatch : List Char → Option (List Char × List Char)
  | [] => none
  | c :: rest =>
    if c = '/' then
      match splitAtLastSlash (rest.takeWhile (fun d => !(isLineTerminator d))) with
      | some (pat, _) =>
        some (pat, (rest.drop (pat.length + 1)).takeWhile isFlagChar)
      | none => findSlashMatch rest
    else findSlashMatch rest

/-- `deserializeRegExp`: `some` of the compiled pattern together with the
number of `Notice` pop-ups the call shows (0 when the shape matched and the
captures compiled, 1 on the no-match fallback path, whose fixed literal
sentinel always compiles); `none` when the shape matched but
`new RegExp(match[1], match[2])` threw a SyntaxError, which escapes the
function and its callers. -/
def deserializeRegExp (E : RegexEngine) (regExpString : List Char) :
    Option (JsRegExp × Nat) :=
  match findSlashMatch regExpString with
  | some (pat, flags) =>
    if E.compiles pat flags then some (⟨pat, flags⟩, 0) else none
  | none => some (⟨dollarHat, ['g']⟩, 1)

/-! ## Settings and files -/

/-- The persisted plugin settings record. -/
structure FilenameHeadingSyncPluginSettings where
  userIllegalSymbols : List Char
  fileIgnoreRegexen : List (List Char)
deriving DecidableEq, Repr

/-- The source constant DEFAULT_SETTINGS. -/
def DEFAULT_SETTINGS : FilenameHeadingSyncPluginSettings :=
  ⟨[], [str "/.*.excalidraw.md$/g"]⟩

/-- The string the settings tab pushes onto `fileIgnoreRegexen` when the
user clicks the Add Regex button, before any editing. -/
def addRegexInitialEntry : List Char := str "//g"

/-- The fields of a host `TFile` the plugin reads.  `frontmatterKeys` is
`some` of the keys bound to truthy values in the metadata-cache frontmatter
when the cache reports a frontmatter block, `none` otherwise (covering both
a missing cache entry and a file without frontmatter); `parentPath` is
`file.parent.path`, assuming the parent folder exists. -/
structure TFile where
  basename : List Char
  extension : List Char
  path : List Char
  parentPath : List Char
  frontmatterKeys : Option (List (List Char))
deriving DecidableEq, Repr

/-! ## sanitizeHeading

Source constant: stockIllegalSymbols = a global regex matching any one of
the characters backslash, slash, colon, pipe, hash, caret, open bracket,
close bracket, or a dot at end of input.  Every match is a single
character, and the matches are pairwise disjoint, so the global
`.replace(stockIllegalSymbols, "")` removes each class character and the
final dot (if any) of the input in one left-to-right pass. -/

/-- Membership in the character class of stockIllegalSymbols. -/
def isStockIllegal (c : Char) : Bool :=
  c = '\\' ∨ c = '/' ∨ c = ':' ∨ c = '|' ∨ c = '#' ∨ c = '^' ∨ c = '[' ∨ c = ']'

/-- One left-to-right pass of the global replace with stockIllegalSymbols:
a class character is always a match and is dropped; a dot is a match (via
the end-of-input alternative) exactly when nothing follows it. -/
def replaceStock : List Char → List Char
  | [] => []
  | c :: rest =>
    if isStockIllegal c then replaceStock rest
    else if c = '.' ∧ rest = [] then []
    else c :: replaceStock rest

/-- `sanitizeHeading`: strip the stock illegal symbols, strip matches of
the deserialized `userIllegalSymbols` pattern, trim.  The engine argument
supplies the semantics of the second, user-configured replace.  When
deserializing the user pattern throws a SyntaxError, the sanitizer itself
throws: `none`. -/
def sanitizeHeading (E : RegexEngine) (st : FilenameHeadingSyncPluginSettings)
    (heading : List Char) : Option (List Char) :=
  match deserializeRegExp E st.userIllegalSymbols with
  | none => none
  | some (r, _) => some (jsTrim (E.replaceAll r (replaceStock heading)))

/-! ## Heading locator -/

/-- Index of the first element of `l` satisfying `p`, if any. -/
def firstIdx {α : Type} (p : α → Bool) : List α → Option Nat
  | [] => none
  | x :: rest => if p x then some 0 else (firstIdx p rest).map (· + 1)

/-- JavaScript `Array.prototype.indexOf(x, start)`: the first index at or
after `start` holding `x`, or -1. -/
def jsArrayIndexOf {α : Type} [DecidableEq α] (l : List α) (x : α)
    (start : Nat) : Int :=
  match firstIdx (fun y => y = x) (l.drop start) with
  | some k => ((start + k : Nat) : Int)
  | none => -1

/-- The frontmatter delimiter line. -/
def frontmatterSep : List Char := str "---"

/-- `getStartLine`: 0, unless line 0 is the frontmatter delimiter, in which
case one past the next delimiter found from index 1 (`indexOf` returns -1
when there is none, and -1 + 1 scans from the top again). -/
def getStartLine (lines : List (List Char)) : Nat :=
  if lines.head? = some frontmatterSep then
    (jsArrayIndexOf lines frontmatterSep 1 + 1).toNat
  else 0

/-- Whether a line starts with the literal level-1 heading marker. -/
def startsWithHeading (l : List Char) : Bool :=
  match l with
  | '#' :: ' ' :: _ => true
  | _ => false

/-- The scan of `getHeadingLine` from absolute index `i` over the remaining
lines: the index of the first heading line, or -1. -/
def findHeadingFrom : Nat → List (List Char) → Int
  | _, [] => -1
  | i, l :: rest => if startsWithHeading l then (i : Int) else findHeadingFrom (i + 1) rest

/-- `getHeadingLine`: scan from `getStartLine` to the end for the first
line starting with the heading marker; -1 when there is none. -/
def getHeadingLine (lines : List (List Char)) : Int :=
  findHeadingFrom (getStartLine lines) (lines.drop (getStartLine lines))

/-! ## Sync handlers -/

/-- The hyphen-to-space replace of the filename-to-heading handler. -/
def hyphenToSpace (l : List Char) : List Char :=
  l.map (fun c => if c = '-' then ' ' else c)

/-- The space-to-hyphen replace of the heading-to-filename handler. -/
def spaceToHyphen (l : List Char) : List Char :=
  l.map (fun c => if c = ' ' then '-' else c)

/-- The heading-formatting step of `handleSyncFilenameToHeading`: sanitize
the basename, turn hyphens into spaces, prepend the marker and uppercase
the first character.  `none` models a throw: either the sanitizer threw a
SyntaxError, or the sanitized basename is empty, so indexing character 0
yields undefined and calling toUpperCase on it throws a TypeError. -/
def formatHeading (E : RegexEngine) (st : FilenameHeadingSyncPluginSettings)
    (basename : List Char) : Option (List Char) :=
  match sanitizeHeading E st basename with
  | none => none
  | some s =>
    match hyphenToSpace s with
    | [] => none
    | c :: rest => some ('#' :: ' ' :: jsToUpperChar c :: rest)

/-- The pure content transformation of `handleSyncFilenameToHeading`:
given the basename and the file content split on newlines, the lines
written back, or `none` when the handler throws before writing.  An
existing heading line is overwritten in place; otherwise the new heading is
unshifted to the front. -/
def handleSyncFilenameToHeading (E : RegexEngine)
    (st : FilenameHeadingSyncPluginSettings) (basename : List Char)
    (lines : List (List Char)) : Option (List (List Char)) :=
  (formatHeading E st basename).map (fun heading =>
    if getHeadingLine lines = -1 then heading :: lines
    else lines.set (getHeadingLine lines).toNat heading)

/-- The observable outcome of `handleSyncHeadingToFilename`: either a
rename request carrying the new path, or the fallback call to
`handleSyncFilenameToHeading` carrying that call's written content. -/
inductive HeadingSyncOutcome where
  | rename (newPath : List Char)
  | fallback (written : Option (List (List Char)))
deriving DecidableEq, Repr

/-- The pure transformation of `handleSyncHeadingToFilename`: when a
heading line exists, sanitize that whole line, hyphenate its spaces,
lowercase it and request a rename to parent slash slug dot md (the outer
`none` models the sanitizer throwing a SyntaxError before any rename
request); otherwise fall back to the filename-to-heading handler, whose own
outcome the fallback constructor carries. -/
def handleSyncHeadingToFilename (E : RegexEngine)
    (st : FilenameHeadingSyncPluginSettings) (parentPath basename : List Char)
    (lines : List (List Char)) : Option HeadingSyncOutcome :=
  if getHeadingLine lines = -1 then
    some (.fallback (handleSyncFilenameToHeading E st basename lines))
  else
    match sanitizeHeading E st (lines.getD (getHeadingLine lines).toNat []) with
    | none => none
    | some heading =>
      some (.rename (parentPath ++ '/' ::
        (spaceToHyphen heading).map jsToLowerChar ++ str ".md"))

/-! ## Ignore filter -/

/-- Marker key of the drawing-canvas plugin. -/
def excalidrawKey : List Char := str "excalidraw-plugin"

/-- Marker key of the kanban-board plugin. -/
def kanbanKey : List Char := str "kanban-plugin"

/-- The regex loop of `ignoreFile`, in list order: each iteration
deserializes the configured entry (a SyntaxError escapes the loop and
`ignoreFile` itself: `none`) and tests
`regex.exec(file.path)?.toString() != null`, which is true exactly when
`exec` found a match; the first hit returns early with true, and a
completed loop yields false. -/
def matchesIgnoreRegex (E : RegexEngine) (path : List Char) :
    List (List Char) → Option Bool
  | [] => some false
  | r :: rest =>
    match deserializeRegExp E r with
    | none => none
    | some (re, _) =>
      if E.hasMatch re path then some true
      else matchesIgnoreRegex E path rest

/-- `ignoreFile`: true when the extension is neither markdown spelling,
when the frontmatter carries a truthy marker key of an incompatible
plugin, or when the path matches some deserialized ignore pattern; `none`
when a configured entry parses but does not compile, so the loop throws. -/
def ignoreFile (E : RegexEngine) (st : FilenameHeadingSyncPluginSettings)
    (file : TFile) : Option Bool :=
  if file.extension ≠ str "md" ∧ file.extension ≠ str "markdown" then some true
  else
    match file.frontmatterKeys with
    | some keys =>
      if keys.contains excalidrawKey then some true
      else if keys.contains kanbanKey then some true
      else matchesIgnoreRegex E file.path st.fileIgnoreRegexen
    | none => matchesIgnoreRegex E file.path st.fileIgnoreRegexen

example : deserializeRegExp jsEngine (str "//g") = some (⟨[], ['g']⟩, 0) := by decide
example : deserializeRegExp jsEngine (str "not-a-regex") = some (⟨dollarHat, ['g']⟩, 1) := by decide
example : deserializeRegExp jsEngine (str "/abc/gi") = some (⟨str "abc", str "gi"⟩, 0) := by decide
example : deserializeRegExp jsEngine (str "/a/b/g") = some (⟨str "a/b", str "g"⟩, 0) := by decide
example : findSlashMatch (str "/a" ++ '\r' :: str "b/g") = none := by decide
example : sanitizeHeading jsEngine DEFAULT_SETTINGS (str "# Hello World") = some (str "Hello World") := by decide
example : sanitizeHeading jsEngine DEFAULT_SETTINGS (str "a..") = some (str "a.") := by decide
example : handleSyncFilenameToHeading jsEngine DEFAULT_SETTINGS (str "my-note") [str "Some text"] = some [str "# My note", str "Some text"] := by decide
example : handleSyncHeadingToFilename jsEngine DEFAULT_SETTINGS (str "notes") (str "x") [str "# Hello World", str "body"] = some (.rename (str "notes/hello-world.md")) := by decide
example : getHeadingLine [str "---", str "title: x", str "---", str "# Real Heading"] = 3 := by decide
example : getHeadingLine [str "Some text"] = -1 := by decide

/-! ## Lemmas: the deserializer parse -/

theorem takeWhile_all {α : Type} (p : α → Bool) (l : List α)
    (h : ∀ c ∈ l, p c = true) : l.takeWhile p = l := by
  induction l with
  | nil => rfl
  | cons x rest ih =>
    rw [List.takeWhile_cons, h x (List.mem_cons_self x rest)]
    rw [ih (fun c hc => h c (List.mem_cons_of_mem x hc))]
    simp

theorem splitAtLastSlash_none (l : List Char) (h : '/' ∉ l) :
    splitAtLastSlash l = none := by
  induction l with
  | nil => rfl
  | cons c rest ih =>
    have hc : c ≠ '/' := fun hc => h (hc ▸ List.mem_cons_self c rest)
    have hrest : '/' ∉ rest := fun hr => h (List.mem_cons_of_mem c hr)
    simp [splitAtLastSlash, ih hrest, hc]

theorem splitAtLastSlash_cons (c : Char) (l a b : List Char)
    (h : splitAtLastSlash l = some (a, b)) :
    splitAtLastSlash (c :: l) = some (c :: a, b) := by
  simp [splitAtLastSlash, h]

theorem splitAtLastSlash_append (p l a b : List Char)
    (h : splitAtLastSlash l = some (a, b)) :
    splitAtLastSlash (p ++ l) = some (p ++ a, b) := by
  induction p with
  | nil => simpa using h
  | cons c q ih => simpa using splitAtLastSlash_cons c (q ++ l) (q ++ a) b ih

theorem splitAtLastSlash_slash (f : List Char) (h : '/' ∉ f) :
    splitAtLastSlash ('/' :: f) = some ([], f) := by
  simp [splitAtLastSlash, splitAtLastSlash_none f h]

theorem isFlagChar_bounds (c : Char) (h : isFlagChar c = true) :
    'a' ≤ c ∧ c ≤ 'z' := by
  simpa [isFlagChar] using h

theorem isFlagChar_not_lineTerminator (c : Char) (h : isFlagChar c = true) :
    isLineTerminator c = false := by
  obtain ⟨h1, h2⟩ := isFlagChar_bounds c h
  simp only [isLineTerminator, decide_eq_false_iff_not]
  intro hor
  rcases hor with rfl | rfl | rfl | rfl
  · exact absurd h1 (by decide)
  · exact absurd h1 (by decide)
  · exact absurd h2 (by decide)
  · exact absurd h2 (by decide)

theorem findSlashMatch_form (p f : List Char) (_h1 : '/' ∉ p)
    (h2 : ∀ c ∈ p, isLineTerminator c = false)
    (h3 : ∀ c ∈ f, isFlagChar c = true) :
    findSlashMatch ('/' :: (p ++ '/' :: f)) = some (p, f) := by
  have hslashf : '/' ∉ f := by
    intro hm
    have := h3 '/' hm
    simp [isFlagChar] at this
  have hseg : (p ++ '/' :: f).takeWhile (fun d => !(isLineTerminator d))
      = p ++ '/' :: f := by
    apply takeWhile_all
    intro c hc
    rcases List.mem_append.mp hc with hp | hcf
    · simp [h2 c hp]
    · rcases List.mem_cons.mp hcf with rfl | hf
      · decide
      · simp [isFlagChar_not_lineTerminator c (h3 c hf)]
  have hsplit : splitAtLastSlash (p ++ '/' :: f) = some (p, f) := by
    have := splitAtLastSlash_append p ('/' :: f) [] f (splitAtLastSlash_slash f hslashf)
    simpa using this
  have hdrop : (p ++ '/' :: f).drop (p.length + 1) = f := by
    have : p ++ '/' :: f = (p ++ ['/']) ++ f := by simp
    rw [this]
    have hlen : p.length + 1 = (p ++ ['/']).length := by simp
    rw [hlen, List.drop_left]
  have hflags : f.takeWhile isFlagChar = f := takeWhile_all isFlagChar f h3
  simp only [findSlashMatch, if_pos rfl, hseg, hsplit, hdrop, hflags]
  simp

/-! ## Lemmas: trimming -/

theorem dropWhile_idem {α : Type} (p : α → Bool) (l : List α) :
    (l.dropWhile p).dropWhile p = l.dropWhile p := by
  induction l with
  | nil => rfl
  | cons c rest ih =>
    by_cases hc : p c = true
    · rw [List.dropWhile_cons_of_pos hc, ih]
    · rw [List.dropWhile_cons_of_neg hc, List.dropWhile_cons_of_neg hc]

theorem mem_of_mem_dropWhile {α : Type} (p : α → Bool) (l : List α) (a : α)
    (h : a ∈ l.dropWhile p) : a ∈ l := by
  induction l with
  | nil => simp at h
  | cons c rest ih =>
    by_cases hc : p c = true
    · rw [List.dropWhile_cons_of_pos hc] at h
      exact List.mem_cons_of_mem c (ih h)
    · rw [List.dropWhile_cons_of_neg hc] at h
      exact h

theorem mem_of_mem_dropTrailWs (l : List Char) (a : Char)
    (h : a ∈ dropTrailWs l) : a ∈ l := by
  unfold dropTrailWs at h
  rw [List.mem_reverse] at h
  have := mem_of_mem_dropWhile isJsWhitespace l.reverse a h
  exact List.mem_reverse.mp this

theorem mem_of_mem_jsTrim (l : List Char) (a : Char) (h : a ∈ jsTrim l) :
    a ∈ l := by
  unfold jsTrim at h
  exact mem_of_mem_dropWhile isJsWhitespace l a (mem_of_mem_dropTrailWs _ a h)

theorem getLast?_dropWhile {α : Type} (p : α → Bool) (l : List α)
    (h : l.dropWhile p ≠ []) : (l.dropWhile p).getLast? = l.getLast? := by
  induction l with
  | nil => simp at h
  | cons c rest ih =>
    by_cases hc : p c = true
    · rw [List.dropWhile_cons_of_pos hc] at h ⊢
      have hrest : rest ≠ [] := by
        intro hr
        subst hr
        simp [List.dropWhile] at h
      rw [ih h]
      cases rest with
      | nil => exact absurd rfl hrest
      | cons r rs => rw [List.getLast?_cons_cons]
    · rw [List.dropWhile_cons_of_neg hc]

theorem head?_dropTrailWs (l : List Char) (h : dropTrailWs l ≠ []) :
    (dropTrailWs l).head? = l.head? := by
  unfold dropTrailWs at h ⊢
  rw [List.head?_reverse]
  have hne : l.reverse.dropWhile isJsWhitespace ≠ [] := by
    intro hx
    rw [hx] at h
    simp at h
  rw [getLast?_dropWhile isJsWhitespace l.reverse hne, List.getLast?_reverse]

theorem dropWhile_of_head_neg {α : Type} (p : α → Bool) (l : List α)
    (h : ∀ a, l.head? = some a → p a = false) : l.dropWhile p = l := by
  cases l with
  | nil => rfl
  | cons c rest => exact List.dropWhile_cons_of_neg (by simp [h c rfl])

theorem head?_dropWhile_neg {α : Type} (p : α → Bool) (l : List α) (a : α)
    (h : (l.dropWhile p).head? = some a) : p a = false := by
  induction l with
  | nil => simp [List.dropWhile] at h
  | cons c rest ih =>
    by_cases hc : p c = true
    · rw [List.dropWhile_cons_of_pos hc] at h
      exact ih h
    · rw [List.dropWhile_cons_of_neg hc] at h
      simp at h
      subst h
      simpa using hc

theorem dropTrailWs_idem (l : List Char) :
    dropTrailWs (dropTrailWs l) = dropTrailWs l := by
  unfold dropTrailWs
  rw [List.reverse_reverse, dropWhile_idem]

theorem dropWhile_dropTrailWs (l : List Char)
    (hfix : l.dropWhile isJsWhitespace = l) :
    (dropTrailWs l).dropWhile isJsWhitespace = dropTrailWs l := by
  apply dropWhile_of_head_neg
  intro a ha
  by_cases hne : dropTrailWs l = []
  · rw [hne] at ha
    simp at ha
  · rw [head?_dropTrailWs l hne] at ha
    have := head?_dropWhile_neg isJsWhitespace l a (by rw [hfix]; exact ha)
    exact this

theorem jsTrim_idem (l : List Char) : jsTrim (jsTrim l) = jsTrim l := by
  unfold jsTrim
  rw [dropWhile_dropTrailWs (l.dropWhile isJsWhitespace) (dropWhile_idem _ _)]
  rw [dropTrailWs_idem]

theorem jsTrim_cons_ws (c : Char) (l : List Char) (h : isJsWhitespace c = true) :
    jsTrim (c :: l) = jsTrim l := by
  unfold jsTrim
  rw [List.dropWhile_cons_of_pos h]

/-! ## Lemmas: the stock replace -/

/-- Drop the final element of a list when it is a dot. -/
def dropTrailingDot (l : List Char) : List Char :=
  if l.getLast? = some '.' then l.dropLast else l

/-- Declarative reading of the first sanitizer stage, as the specification
words it: remove every occurrence of a fixed illegal symbol, and the
trailing dot of the input when there is one (both determined on the input,
as the single global regex pass does). -/
def specStripStock (s : List Char) : List Char :=
  (dropTrailingDot s).filter (fun c => !(isStockIllegal c))

theorem dropTrailingDot_cons_cons (c r : Char) (rs : List Char) :
    dropTrailingDot (c :: r :: rs) = c :: dropTrailingDot (r :: rs) := by
  unfold dropTrailingDot
  rw [List.getLast?_cons_cons]
  by_cases h : (r :: rs).getLast? = some '.'
  · rw [if_pos h, if_pos h]
    rfl
  · rw [if_neg h, if_neg h]

theorem replaceStock_nil : replaceStock [] = [] := rfl

theorem replaceStock_cons (c : Char) (rest : List Char) :
    replaceStock (c :: rest) =
      if isStockIllegal c then replaceStock rest
      else if c = '.' ∧ rest = [] then [] else c :: replaceStock rest := rfl

theorem replaceStock_eq_specStripStock (s : List Char) :
    replaceStock s = specStripStock s := by
  induction s with
  | nil => simp [replaceStock_nil, specStripStock, dropTrailingDot]
  | cons c rest ih =>
    cases rest with
    | nil =>
      by_cases hst : isStockIllegal c = true
      · have hcd : c ≠ '.' := by
          intro hx
          subst hx
          simp [isStockIllegal] at hst
        simp [replaceStock_cons, replaceStock_nil, specStripStock,
          dropTrailingDot, hst, hcd]
      · by_cases hdot : c = '.'
        · subst hdot
          simp [replaceStock_cons, replaceStock_nil, specStripStock,
            dropTrailingDot]
        · simp [replaceStock_cons, replaceStock_nil, specStripStock,
            dropTrailingDot, hst, hdot]
    | cons r rs =>
      unfold specStripStock
      rw [dropTrailingDot_cons_cons, List.filter_cons]
      by_cases hst : isStockIllegal c = true
      · rw [replaceStock_cons, if_pos hst, ih]
        simp [specStripStock, hst]
      · have hnotdot : ¬(c = '.' ∧ r :: rs = []) := by simp
        rw [replaceStock_cons, if_neg hst, if_neg hnotdot, ih]
        simp [specStripStock, hst]

theorem not_stock_of_mem_replaceStock (s : List Char) (c : Char)
    (h : c ∈ replaceStock s) : isStockIllegal c = false := by
  induction s with
  | nil => simp [replaceStock] at h
  | cons d rest ih =>
    unfold replaceStock at h
    by_cases hd : isStockIllegal d = true
    · rw [if_pos hd] at h
      exact ih h
    · rw [if_neg hd] at h
      by_cases hdot : d = '.' ∧ rest = []
      · rw [if_pos hdot] at h
        simp at h
      · rw [if_neg hdot] at h
        rcases List.mem_cons.mp h with rfl | hm
        · simpa using hd
        · exact ih hm

theorem replaceStock_fix (l : List Char)
    (h1 : ∀ c ∈ l, isStockIllegal c = false)
    (h2 : l.getLast? ≠ some '.') : replaceStock l = l := by
  induction l with
  | nil => rfl
  | cons c rest ih =>
    rw [replaceStock_cons, if_neg (by simp [h1 c (List.mem_cons_self c rest)])]
    cases rest with
    | nil =>
      have hc : ¬(c = '.' ∧ ([] : List Char) = []) := by
        intro hx
        exact h2 (by simp [hx.1])
      rw [if_neg hc, replaceStock_nil]
    | cons r rs =>
      have hc : ¬(c = '.' ∧ r :: rs = []) := by simp
      rw [if_neg hc]
      rw [ih (fun x hx => h1 x (List.mem_cons_of_mem c hx))
        (by rwa [List.getLast?_cons_cons] at h2)]

theorem replaceStock_hash_space (l : List Char) :
    replaceStock ('#' :: ' ' :: l) = ' ' :: replaceStock l := by
  rw [replaceStock_cons, if_pos (by decide), replaceStock_cons,
    if_neg (by decide), if_neg (by simp)]

/-! ## Lemmas: the sanitizer -/

/-- Deserializing the user pattern returns a compiled pattern (no
SyntaxError) whose global replace is the identity, as it is under the
default settings: the empty `userIllegalSymbols` string fails the shape
match, the deserializer falls back to the always-compiling sentinel, and
replacing sentinel matches changes nothing. -/
def userReplaceIsId (E : RegexEngine)
    (st : FilenameHeadingSyncPluginSettings) : Prop :=
  ∃ r n, deserializeRegExp E st.userIllegalSymbols = some (r, n)
    ∧ ∀ s, E.replaceAll r s = s

theorem sanitizeHeading_of_userId (E : RegexEngine)
    (st : FilenameHeadingSyncPluginSettings) (h : userReplaceIsId E st)
    (s : List Char) :
    sanitizeHeading E st s = some (jsTrim (replaceStock s)) := by
  obtain ⟨r, n, hde, hid⟩ := h
  unfold sanitizeHeading
  rw [hde]
  simp only [hid]

theorem sanitizeHeading_fix (E : RegexEngine)
    (st : FilenameHeadingSyncPluginSettings) (h : userReplaceIsId E st)
    (s t : List Char) (hs : sanitizeHeading E st s = some t)
    (hdot : t.getLast? ≠ some '.') :
    sanitizeHeading E st t = some t := by
  have hval := sanitizeHeading_of_userId E st h s
  rw [hs] at hval
  have ht : t = jsTrim (replaceStock s) := Option.some.inj hval
  subst ht
  rw [sanitizeHeading_of_userId E st h]
  rw [replaceStock_fix (jsTrim (replaceStock s))
    (fun c hc => not_stock_of_mem_replaceStock s c (mem_of_mem_jsTrim _ c hc))
    hdot]
  rw [jsTrim_idem]

theorem sanitizeHeading_hash_space (E : RegexEngine)
    (st : FilenameHeadingSyncPluginSettings) (h : userReplaceIsId E st)
    (t : List Char) :
    sanitizeHeading E st ('#' :: ' ' :: t) = sanitizeHeading E st t := by
  rw [sanitizeHeading_of_userId E st h, sanitizeHeading_of_userId E st h,
    replaceStock_hash_space, jsTrim_cons_ws ' ' _ (by decide)]

/-! ## Lemmas: the heading locator -/

theorem findHeadingFrom_none (i : Nat) (l : List (List Char))
    (h : firstIdx startsWithHeading l = none) : findHeadingFrom i l = -1 := by
  induction l generalizing i with
  | nil => rfl
  | cons x rest ih =>
    unfold firstIdx at h
    by_cases hx : startsWithHeading x = true
    · rw [if_pos hx] at h
      simp at h
    · rw [if_neg hx] at h
      unfold findHeadingFrom
      rw [if_neg hx]
      exact ih (i + 1) (by simpa using h)

theorem findHeadingFrom_some (i k : Nat) (l : List (List Char))
    (h : firstIdx startsWithHeading l = some k) :
    findHeadingFrom i l = ((i + k : Nat) : Int) := by
  induction l generalizing i k with
  | nil => simp [firstIdx] at h
  | cons x rest ih =>
    unfold firstIdx at h
    by_cases hx : startsWithHeading x = true
    · rw [if_pos hx] at h
      unfold findHeadingFrom
      rw [if_pos hx]
      simp at h
      subst h
      simp
    · rw [if_neg hx] at h
      rcases Option.map_eq_some'.mp h with ⟨k', hk', rfl⟩
      unfold findHeadingFrom
      rw [if_neg hx, ih (i + 1) k' hk']
      congr 1
      omega

/-! ## Lemmas: lowercasing -/

theorem toNat_ofNat_valid (n : Nat) (h : n.isValidChar) :
    (Char.ofNat n).toNat = n := by
  unfold Char.ofNat
  rw [dif_pos h]
  rfl

theorem toLower_ne_space (c : Char) (h : c ≠ ' ') : Char.toLower c ≠ ' ' := by
  unfold Char.toLower
  by_cases hc : c.toNat ≥ 65 ∧ c.toNat ≤ 90
  · rw [if_pos hc]
    intro hx
    have hv : (c.toNat + 32).isValidChar := by
      left
      omega
    have h2 : (Char.ofNat (c.toNat + 32)).toNat = c.toNat + 32 :=
      toNat_ofNat_valid _ hv
    rw [hx] at h2
    have h3 : (' ').toNat = 32 := rfl
    omega
  · rw [if_neg hc]
    exact h

theorem map_toLower_spaceToHyphen_comm (l : List Char) :
    (spaceToHyphen l).map jsToLowerChar
      = spaceToHyphen (l.map jsToLowerChar) := by
  unfold spaceToHyphen
  rw [List.map_map, List.map_map]
  apply List.map_congr_left
  intro c _
  simp only [Function.comp_apply]
  by_cases hc : c = ' '
  · subst hc
    decide
  · rw [if_neg hc, if_neg (by simpa [jsToLowerChar] using toLower_ne_space c hc)]

/-! ## Claim theorems -/

/-- The sanitizer as the specification words it: remove the fixed illegal
symbols and the trailing dot of the input, then remove the matches of the
deserialized userIllegalSymbols pattern, then trim (a SyntaxError from the
user-pattern deserialization escapes, exactly as in the implementation). -/
def sanitizeHeadingSpec (E : RegexEngine)
    (st : FilenameHeadingSyncPluginSettings) (s : List Char) :
    Option (List Char) :=
  match deserializeRegExp E st.userIllegalSymbols with
  | none => none
  | some (r, _) => some (jsTrim (E.replaceAll r (specStripStock s)))

/-- C7: sanitizeHeading removes all occurrences of the fixed illegal
symbols together with a trailing literal dot at end of the input string,
then removes all occurrences matching the deserialized userIllegalSymbols
pattern, then trims leading and trailing whitespace, in that order, for
every input string and every regex engine. -/
theorem sanitizeHeading_matches_spec (E : RegexEngine)
    (st : FilenameHeadingSyncPluginSettings) (s : List Char) :
    sanitizeHeading E st s = sanitizeHeadingSpec E st s := by
  unfold sanitizeHeading sanitizeHeadingSpec
  cases deserializeRegExp E st.userIllegalSymbols with
  | none => rfl
  | some rn =>
    obtain ⟨r, n⟩ := rn
    simp only [replaceStock_eq_specStripStock]

/-- C5: getHeadingLine returns the index of the first line at or after
startLine starting with the literal level-1 heading marker, and -1 when no
such line exists; startLine is 0 when line 0 is not the frontmatter
delimiter, one past the index of the next delimiter (searched from index 1)
when line 0 is the delimiter and a closing one exists, and 0 (scan from the
top) when line 0 is the delimiter but no closing one exists. -/
theorem getHeadingLine_contract (lines : List (List Char)) :
    (lines.head? ≠ some frontmatterSep → getStartLine lines = 0)
    ∧ (lines.head? = some frontmatterSep →
        (∀ k, firstIdx (fun y => y = frontmatterSep) (lines.drop 1) = some k →
          getStartLine lines = k + 2)
        ∧ (firstIdx (fun y => y = frontmatterSep) (lines.drop 1) = none →
          getStartLine lines = 0))
    ∧ (∀ k, firstIdx startsWithHeading (lines.drop (getStartLine lines)) = some k →
        getHeadingLine lines = ((getStartLine lines + k : Nat) : Int))
    ∧ (firstIdx startsWithHeading (lines.drop (getStartLine lines)) = none →
        getHeadingLine lines = -1) := by
  refine ⟨?_, ?_, ?_, ?_⟩
  · intro h
    unfold getStartLine
    rw [if_neg h]
  · intro h
    constructor
    · intro k hk
      unfold getStartLine jsArrayIndexOf
      rw [if_pos h, hk]
      simp
      omega
    · intro hk
      unfold getStartLine jsArrayIndexOf
      rw [if_pos h, hk]
      rfl
  · intro k hk
    unfold getHeadingLine
    exact findHeadingFrom_some _ k _ hk
  · intro hk
    unfold getHeadingLine
    exact findHeadingFrom_none _ _ hk

/-- Witness for C5 at the frontmatter-skipping example of the
specification: delimiter at 0, closing delimiter at 2, heading at 3. -/
theorem getHeadingLine_contract_witness :
    getStartLine [str "---", str "title: x", str "---", str "# Real Heading"] = 3
    ∧ getHeadingLine [str "---", str "title: x", str "---", str "# Real Heading"] = 3 := by
  have h := getHeadingLine_contract
    [str "---", str "title: x", str "---", str "# Real Heading"]
  have h1 : getStartLine [str "---", str "title: x", str "---", str "# Real Heading"] = 3 :=
    (h.2.1 (by decide)).1 1 (by decide)
  refine ⟨h1, ?_⟩
  have h2 := h.2.2.1 0 (by decide)
  rw [h1] at h2
  simpa using h2

/-- Counterexample to C1: under the default settings (whose deserialized
user pattern is the match-nothing sentinel) sanitizing a-dot-dot returns
a-dot, while sanitizing a-dot returns a: re-sanitizing an already-sanitized
string changes it, because the end-of-input dot alternative of the stock
regex removes one trailing dot per pass. -/
theorem sanitizeHeading_not_idempotent :
    sanitizeHeading jsEngine DEFAULT_SETTINGS (str "a..") = some (str "a.")
    ∧ sanitizeHeading jsEngine DEFAULT_SETTINGS (str "a.") = some (str "a")
    ∧ sanitizeHeading jsEngine DEFAULT_SETTINGS (str "a.") ≠ some (str "a.") := by
  refine ⟨by decide, by decide, by decide⟩

/-- C1 amended: whenever the deserialized userIllegalSymbols pattern exists
and replacing its matches is the identity (as under the default setting),
sanitizeHeading is idempotent on exactly the sanitizer outputs that do not
end in a dot: re-sanitizing such an already-sanitized string returns it
unchanged. -/
theorem sanitizeHeading_idempotent_amended (E : RegexEngine)
    (st : FilenameHeadingSyncPluginSettings) (h : userReplaceIsId E st)
    (s t : List Char) (hs : sanitizeHeading E st s = some t)
    (hdot : t.getLast? ≠ some '.') :
    sanitizeHeading E st t = some t :=
  sanitizeHeading_fix E st h s t hs hdot

/-- Witness for the amended C1 at the default settings: a basename with one
trailing dot sanitizes to a dot-free string, whose re-sanitization is the
identity. -/
theorem sanitizeHeading_idempotent_amended_witness :
    sanitizeHeading jsEngine DEFAULT_SETTINGS (str "My-note.") = some (str "My-note")
    ∧ (str "My-note").getLast? ≠ some '.'
    ∧ sanitizeHeading jsEngine DEFAULT_SETTINGS (str "My-note") = some (str "My-note") :=
  ⟨by decide, by decide,
    sanitizeHeading_idempotent_amended jsEngine DEFAULT_SETTINGS
      ⟨⟨dollarHat, ['g']⟩, 1, by decide, fun _ => rfl⟩
      (str "My-note.") (str "My-note") (by decide) (by decide)⟩

/-- Counterexample to C2: the fallback pattern returned for a malformed
serialization is the sentinel, and the sentinel does have a match in the
empty input (position 0 of the empty string is both its start and its end),
so the returned pattern does not match literally no input at all. -/
theorem deserializeRegExp_fallback_matches_empty_input :
    deserializeRegExp jsEngine (str "not-a-regex") = some (⟨dollarHat, ['g']⟩, 1)
    ∧ jsEngine.hasMatch ⟨dollarHat, ['g']⟩ [] = true := by
  refine ⟨by decide, by decide⟩

/-- C2 amended: over any regex engine, a string of the form slash pattern
slash flags (pattern free of slashes and line terminators, flags lowercase
letters) deserializes with no notification to exactly that pattern and
flags when the engine compiles the pair, while the SyntaxError of the
constructor escapes with no return and no notification when it does not;
a string with no parseable shape (such as not-a-regex) yields exactly one
notification and the always-compiling sentinel with the global flag, which
matches no NON-EMPTY input (it does match the empty string). -/
theorem deserializeRegExp_contract (E : RegexEngine) (p f : List Char)
    (h1 : '/' ∉ p) (h2 : ∀ c ∈ p, isLineTerminator c = false)
    (h3 : ∀ c ∈ f, isFlagChar c = true) :
    (E.compiles p f = true →
      deserializeRegExp E ('/' :: (p ++ '/' :: f)) = some (⟨p, f⟩, 0))
    ∧ (E.compiles p f = false →
      deserializeRegExp E ('/' :: (p ++ '/' :: f)) = none)
    ∧ deserializeRegExp E (str "not-a-regex") = some (⟨dollarHat, ['g']⟩, 1)
    ∧ (∀ s, s ≠ [] → jsEngine.hasMatch ⟨dollarHat, ['g']⟩ s = false)
    ∧ jsEngine.hasMatch ⟨dollarHat, ['g']⟩ [] = true := by
  have hparse : findSlashMatch ('/' :: (p ++ '/' :: f)) = some (p, f) :=
    findSlashMatch_form p f h1 h2 h3
  refine ⟨?_, ?_, ?_, ?_, by decide⟩
  · intro hc
    unfold deserializeRegExp
    rw [hparse]
    simp [hc]
  · intro hc
    unfold deserializeRegExp
    rw [hparse]
    simp [hc]
  · unfold deserializeRegExp
    rw [show findSlashMatch (str "not-a-regex") = none from by decide]
  · intro s hs
    cases s with
    | nil => exact absurd rfl hs
    | cons c cs => simp [jsEngine, dollarHat]

/-- Witness for the amended C2 at the concrete serialization of the
pattern abc with flag g, exercising both the compiling engine and an
engine that rejects the pair. -/
theorem deserializeRegExp_contract_witness :
    ('/' ∉ str "abc")
    ∧ jsEngine.compiles (str "abc") (str "g") = true
    ∧ deserializeRegExp jsEngine (str "/abc/g") = some (⟨str "abc", str "g"⟩, 0)
    ∧ deserializeRegExp ⟨fun _ _ => false, fun _ s => s, fun _ _ => false⟩
        (str "/abc/g") = none := by
  refine ⟨by decide, rfl, ?_, ?_⟩
  · have h := deserializeRegExp_contract jsEngine (str "abc") (str "g")
      (by decide) (by decide) (by decide)
    have heq : str "/abc/g" = '/' :: (str "abc" ++ '/' :: str "g") := by decide
    rw [heq]
    exact h.1 rfl
  · have h := deserializeRegExp_contract
      ⟨fun _ _ => false, fun _ s => s, fun _ _ => false⟩ (str "abc") (str "g")
      (by decide) (by decide) (by decide)
    have heq : str "/abc/g" = '/' :: (str "abc" ++ '/' :: str "g") := by decide
    rw [heq]
    exact h.2.1 rfl

/-- C3: after filename-to-heading sync the heading line equals the marker
followed by the capitalized, de-hyphenated sanitized basename (all hyphens
become spaces, only the first character is uppercased); when getHeadingLine
found an existing heading line it is overwritten in place, otherwise the
new heading is inserted as the very first line, all other lines unchanged;
and the concrete scenario of the specification. -/
theorem handleSyncFilenameToHeading_contract (E : RegexEngine)
    (st : FilenameHeadingSyncPluginSettings) (b : List Char)
    (lines : List (List Char)) (sb : List Char) (c : Char) (cs : List Char)
    (hsan : sanitizeHeading E st b = some sb)
    (h : hyphenToSpace sb = c :: cs) :
    (getHeadingLine lines = -1 →
      handleSyncFilenameToHeading E st b lines
        = some (('#' :: ' ' :: jsToUpperChar c :: cs) :: lines))
    ∧ (∀ i : Nat, getHeadingLine lines = (i : Int) →
      handleSyncFilenameToHeading E st b lines
        = some (lines.set i ('#' :: ' ' :: jsToUpperChar c :: cs)))
    ∧ handleSyncFilenameToHeading jsEngine DEFAULT_SETTINGS (str "my-note")
        [str "Some text"] = some [str "# My note", str "Some text"] := by
  refine ⟨?_, ?_, by decide⟩
  · intro hl
    unfold handleSyncFilenameToHeading formatHeading
    rw [hsan]
    simp [h, hl]
  · intro i hi
    have hne : getHeadingLine lines ≠ -1 := by
      rw [hi]
      omega
    unfold handleSyncFilenameToHeading formatHeading
    rw [hsan]
    simp [h, hne, hi]

/-- Witness for C3 at the specification scenario. -/
theorem handleSyncFilenameToHeading_contract_witness :
    sanitizeHeading jsEngine DEFAULT_SETTINGS (str "my-note") = some (str "my-note")
    ∧ hyphenToSpace (str "my-note") = 'm' :: str "y note"
    ∧ handleSyncFilenameToHeading jsEngine DEFAULT_SETTINGS (str "my-note")
        [str "Some text"] = some [str "# My note", str "Some text"] := by
  refine ⟨by decide, by decide, ?_⟩
  have h := handleSyncFilenameToHeading_contract jsEngine DEFAULT_SETTINGS
    (str "my-note") [str "Some text"] (str "my-note") 'm' (str "y note")
    (by decide) (by decide)
  exact h.2.2

/-- C9: the filename-to-heading handler is well-defined exactly when the
sanitized basename is non-empty: when the basename sanitizes to the empty
string the heading-formatting step indexes character 0 of an empty string
and calls toUpperCase on undefined, throwing a TypeError before any write
(modelled as `none`); when the sanitizer itself throws nothing is written
either; and when it returns a non-empty string a write is produced. -/
theorem emptySanitizedBasename_crash (E : RegexEngine)
    (st : FilenameHeadingSyncPluginSettings) (b : List Char)
    (lines : List (List Char)) :
    (sanitizeHeading E st b = some [] →
      handleSyncFilenameToHeading E st b lines = none)
    ∧ (sanitizeHeading E st b = none →
      handleSyncFilenameToHeading E st b lines = none)
    ∧ (∀ t, sanitizeHeading E st b = some t → t ≠ [] →
      (handleSyncFilenameToHeading E st b lines).isSome = true) := by
  refine ⟨?_, ?_, ?_⟩
  · intro h
    unfold handleSyncFilenameToHeading formatHeading
    rw [h]
    rfl
  · intro h
    unfold handleSyncFilenameToHeading formatHeading
    rw [h]
    rfl
  · intro t hsan ht
    unfold handleSyncFilenameToHeading formatHeading
    rw [hsan]
    cases hmap : hyphenToSpace t with
    | nil =>
      unfold hyphenToSpace at hmap
      exact absurd (List.map_eq_nil_iff.mp hmap) ht
    | cons c cs => simp [hmap]

/-- Witness for C9: a basename consisting solely of illegal symbols
sanitizes to the empty string and the handler produces no write. -/
theorem emptySanitizedBasename_crash_witness :
    sanitizeHeading jsEngine DEFAULT_SETTINGS (str "###") = some []
    ∧ handleSyncFilenameToHeading jsEngine DEFAULT_SETTINGS (str "###")
        [str "x"] = none :=
  ⟨by decide, (emptySanitizedBasename_crash jsEngine DEFAULT_SETTINGS
    (str "###") [str "x"]).1 (by decide)⟩

/-- C4: when the first level-1 heading line is the marker followed by text
h, heading-to-filename sync requests a rename to the same parent directory
slash the sanitized heading text, lowercased with all spaces replaced by
hyphens, with extension .md; stated for engines under which the
user-pattern replace exists and is the identity (as for the default
settings), since the handler sanitizes the whole heading line and the
leading marker is itself stripped by the sanitizer; and the concrete
scenario of the specification. -/
theorem handleSyncHeadingToFilename_contract (E : RegexEngine)
    (st : FilenameHeadingSyncPluginSettings) (hu : userReplaceIsId E st)
    (parentPath basename : List Char) (lines : List (List Char))
    (i : Nat) (h sh : List Char)
    (hI : getHeadingLine lines = (i : Int))
    (hline : lines.getD i [] = '#' :: ' ' :: h)
    (hs : sanitizeHeading E st h = some sh) :
    handleSyncHeadingToFilename E st parentPath basename lines
      = some (.rename (parentPath ++ '/' ::
          spaceToHyphen (sh.map jsToLowerChar) ++ str ".md"))
    ∧ handleSyncHeadingToFilename jsEngine DEFAULT_SETTINGS (str "notes")
        (str "x") [str "# Hello World", str "body"]
      = some (.rename (str "notes/hello-world.md")) := by
  refine ⟨?_, by decide⟩
  have hne : getHeadingLine lines ≠ -1 := by
    rw [hI]
    omega
  unfold handleSyncHeadingToFilename
  rw [if_neg hne, hI]
  have htn : ((i : Int)).toNat = i := rfl
  rw [htn, hline, sanitizeHeading_hash_space E st hu h, hs]
  simp only [map_toLower_spaceToHyphen_comm]

/-- Witness for C4 at the specification scenario. -/
theorem handleSyncHeadingToFilename_contract_witness :
    getHeadingLine [str "# Hello World", str "body"] = (0 : Int)
    ∧ handleSyncHeadingToFilename jsEngine DEFAULT_SETTINGS (str "notes")
        (str "x") [str "# Hello World", str "body"]
      = some (.rename (str "notes/hello-world.md")) := by
  refine ⟨by decide, ?_⟩
  have h := handleSyncHeadingToFilename_contract jsEngine DEFAULT_SETTINGS
    ⟨⟨dollarHat, ['g']⟩, 1, by decide, fun _ => rfl⟩
    (str "notes") (str "x") [str "# Hello World", str "body"]
    0 (str "Hello World") (str "Hello World") (by decide) (by decide) (by decide)
  exact h.2

/-- C8: when getHeadingLine finds no level-1 heading, the
heading-to-filename handler performs no rename: it returns the fallback
outcome carrying exactly the filename-to-heading result, recreating a
heading from the current filename. -/
theorem missingHeading_fallback (E : RegexEngine)
    (st : FilenameHeadingSyncPluginSettings)
    (parentPath basename : List Char) (lines : List (List Char))
    (h : getHeadingLine lines = -1) :
    handleSyncHeadingToFilename E st parentPath basename lines
      = some (.fallback (handleSyncFilenameToHeading E st basename lines))
    ∧ ∀ p, handleSyncHeadingToFilename E st parentPath basename lines
      ≠ some (.rename p) := by
  have heq : handleSyncHeadingToFilename E st parentPath basename lines
      = some (.fallback (handleSyncFilenameToHeading E st basename lines)) := by
    unfold handleSyncHeadingToFilename
    rw [if_pos h]
  refine ⟨heq, ?_⟩
  intro p hp
  rw [heq] at hp
  exact HeadingSyncOutcome.noConfusion (Option.some.inj hp)

/-- Witness for C8: a document with no heading line falls back. -/
theorem missingHeading_fallback_witness :
    getHeadingLine [str "body"] = -1
    ∧ handleSyncHeadingToFilename jsEngine DEFAULT_SETTINGS (str "notes")
        (str "my-note") [str "body"]
      = some (.fallback (handleSyncFilenameToHeading jsEngine DEFAULT_SETTINGS
          (str "my-note") [str "body"])) :=
  ⟨by decide, (missingHeading_fallback jsEngine DEFAULT_SETTINGS (str "notes")
    (str "my-note") [str "body"] (by decide)).1⟩

/-! ## Lemmas: the ignore loop -/

theorem matchesIgnoreRegex_true_of_mem (E : RegexEngine) (path : List Char)
    (l : List (List Char)) (r : List Char) (re : JsRegExp) (n : Nat)
    (hok : ∀ x ∈ l, (deserializeRegExp E x).isSome = true)
    (hmem : r ∈ l) (hde : deserializeRegExp E r = some (re, n))
    (hm : E.hasMatch re path = true) :
    matchesIgnoreRegex E path l = some true := by
  induction l with
  | nil => simp at hmem
  | cons x rest ih =>
    obtain ⟨⟨re2, n2⟩, hde2⟩ :=
      Option.isSome_iff_exists.mp (hok x (List.mem_cons_self x rest))
    unfold matchesIgnoreRegex
    rw [hde2]
    show (if E.hasMatch re2 path = true then some true
      else matchesIgnoreRegex E path rest) = some true
    by_cases hmx : E.hasMatch re2 path = true
    · simp [hmx]
    · rw [if_neg hmx]
      rcases List.mem_cons.mp hmem with rfl | hmem2
      · rw [hde] at hde2
        have hre : re = re2 := congrArg (fun q => q.fst) (Option.some.inj hde2)
        exact absurd (hre ▸ hm) hmx
      · exact ih (fun x hx => hok x (List.mem_cons_of_mem _ hx)) hmem2

theorem matchesIgnoreRegex_true_iff (E : RegexEngine) (path : List Char)
    (l : List (List Char))
    (hok : ∀ x ∈ l, (deserializeRegExp E x).isSome = true) :
    (matchesIgnoreRegex E path l = some true ↔
      ∃ r ∈ l, ∃ re n, deserializeRegExp E r = some (re, n)
        ∧ E.hasMatch re path = true) := by
  constructor
  · intro hm
    induction l with
    | nil => simp [matchesIgnoreRegex] at hm
    | cons x rest ih =>
      obtain ⟨⟨re2, n2⟩, hde2⟩ :=
        Option.isSome_iff_exists.mp (hok x (List.mem_cons_self x rest))
      unfold matchesIgnoreRegex at hm
      rw [hde2] at hm
      have hm2 : (if E.hasMatch re2 path = true then some true
          else matchesIgnoreRegex E path rest) = some true := hm
      by_cases hmx : E.hasMatch re2 path = true
      · exact ⟨x, List.mem_cons_self x rest, re2, n2, hde2, hmx⟩
      · rw [if_neg hmx] at hm2
        obtain ⟨r, hr, re, n, hde, hmr⟩ :=
          ih (fun x hx => hok x (List.mem_cons_of_mem _ hx)) hm2
        exact ⟨r, List.mem_cons_of_mem _ hr, re, n, hde, hmr⟩
  · intro hd
    obtain ⟨r, hr, re, n, hde, hmr⟩ := hd
    exact matchesIgnoreRegex_true_of_mem E path l r re n hok hr hde hmr

theorem matchesIgnoreRegex_false_of_all (E : RegexEngine) (path : List Char)
    (l : List (List Char))
    (hall : ∀ r ∈ l, ∃ re n, deserializeRegExp E r = some (re, n)
      ∧ E.hasMatch re path = false) :
    matchesIgnoreRegex E path l = some false := by
  induction l with
  | nil => rfl
  | cons x rest ih =>
    obtain ⟨re, n, hde, hm⟩ := hall x (List.mem_cons_self x rest)
    unfold matchesIgnoreRegex
    rw [hde]
    show (if E.hasMatch re path = true then some true
      else matchesIgnoreRegex E path rest) = some false
    rw [if_neg (by simp [hm])]
    exact ih (fun r hr => hall r (List.mem_cons_of_mem _ hr))

/-- C6: on every execution in which each configured entry deserializes
without a SyntaxError, ignoreFile returns true exactly when the extension
is neither md nor markdown, or the frontmatter carries a truthy
excalidraw-plugin or kanban-plugin marker key, or the path matches some
configured ignore pattern after deserialization; unconditionally, it
returns true for extension txt, and false for an md document with no
frontmatter whose every configured entry deserializes to a pattern not
matching the path. -/
theorem ignoreFile_contract (E : RegexEngine)
    (st : FilenameHeadingSyncPluginSettings) (f : TFile) :
    ((∀ r ∈ st.fileIgnoreRegexen, (deserializeRegExp E r).isSome = true) →
      (ignoreFile E st f = some true ↔
        (f.extension ≠ str "md" ∧ f.extension ≠ str "markdown")
        ∨ (∃ keys, f.frontmatterKeys = some keys ∧
            (keys.contains excalidrawKey = true ∨ keys.contains kanbanKey = true))
        ∨ (∃ r ∈ st.fileIgnoreRegexen, ∃ re n,
            deserializeRegExp E r = some (re, n)
            ∧ E.hasMatch re f.path = true)))
    ∧ (f.extension = str "txt" → ignoreFile E st f = some true)
    ∧ (f.extension = str "md" → f.frontmatterKeys = none →
        (∀ r ∈ st.fileIgnoreRegexen, ∃ re n,
          deserializeRegExp E r = some (re, n)
          ∧ E.hasMatch re f.path = false) →
        ignoreFile E st f = some false) := by
  by_cases hext : f.extension ≠ str "md" ∧ f.extension ≠ str "markdown"
  · have hig : ignoreFile E st f = some true := by
      unfold ignoreFile
      rw [if_pos hext]
    exact ⟨fun _ => ⟨fun _ => Or.inl hext, fun _ => hig⟩, fun _ => hig,
      fun hmd _ _ => absurd hmd hext.1⟩
  · have htxt : f.extension = str "txt" → ignoreFile E st f = some true := by
      intro hx
      exfalso
      apply hext
      rw [hx]
      exact ⟨by decide, by decide⟩
    cases hfm : f.frontmatterKeys with
    | none =>
      have hig : ignoreFile E st f
          = matchesIgnoreRegex E f.path st.fileIgnoreRegexen := by
        unfold ignoreFile
        rw [if_neg hext]
        simp only [hfm]
      refine ⟨?_, htxt, ?_⟩
      · intro hok
        rw [hig]
        rw [matchesIgnoreRegex_true_iff E f.path st.fileIgnoreRegexen hok]
        constructor
        · intro hm
          exact Or.inr (Or.inr hm)
        · intro hd
          rcases hd with hd | ⟨keys, hk, _⟩ | hd
          · exact absurd hd hext
          · exact Option.noConfusion hk
          · exact hd
      · intro _ _ hall
        rw [hig]
        exact matchesIgnoreRegex_false_of_all E f.path st.fileIgnoreRegexen hall
    | some keys =>
      by_cases hex : keys.contains excalidrawKey = true
      · have hig : ignoreFile E st f = some true := by
          unfold ignoreFile
          rw [if_neg hext]
          simp only [hfm]
          rw [if_pos hex]
        refine ⟨fun _ => ⟨fun _ => Or.inr (Or.inl ⟨keys, rfl, Or.inl hex⟩),
          fun _ => hig⟩, htxt, ?_⟩
        intro _ hfm2 _
        exact Option.noConfusion hfm2
      · by_cases hkb : keys.contains kanbanKey = true
        · have hig : ignoreFile E st f = some true := by
            unfold ignoreFile
            rw [if_neg hext]
            simp only [hfm]
            rw [if_neg hex, if_pos hkb]
          refine ⟨fun _ => ⟨fun _ => Or.inr (Or.inl ⟨keys, rfl, Or.inr hkb⟩),
            fun _ => hig⟩, htxt, ?_⟩
          intro _ hfm2 _
          exact Option.noConfusion hfm2
        · have hig : ignoreFile E st f
              = matchesIgnoreRegex E f.path st.fileIgnoreRegexen := by
            unfold ignoreFile
            rw [if_neg hext]
            simp only [hfm]
            rw [if_neg hex, if_neg hkb]
          refine ⟨?_, htxt, ?_⟩
          · intro hok
            rw [hig]
            rw [matchesIgnoreRegex_true_iff E f.path st.fileIgnoreRegexen hok]
            constructor
            · intro hm
              exact Or.inr (Or.inr hm)
            · intro hd
              rcases hd with hd | ⟨keys2, hk2, hmark⟩ | hd
              · exact absurd hd hext
              · injection hk2 with hk2
                subst hk2
                rcases hmark with hm | hm
                · exact absurd hm hex
                · exact absurd hm hkb
              · exact hd
          · intro _ hfm2 _
            exact Option.noConfusion hfm2

/-- Witness for C6: a txt file is ignored; an md file with no frontmatter
and an empty ignore list is not. -/
theorem ignoreFile_contract_witness :
    ignoreFile jsEngine DEFAULT_SETTINGS
      ⟨str "a", str "txt", str "a.txt", str "notes", none⟩ = some true
    ∧ ignoreFile jsEngine ⟨[], []⟩
      ⟨str "a", str "md", str "a.md", str "notes", none⟩ = some false := by
  constructor
  · exact (ignoreFile_contract jsEngine DEFAULT_SETTINGS
      ⟨str "a", str "txt", str "a.txt", str "notes", none⟩).2.1 rfl
  · exact (ignoreFile_contract jsEngine ⟨[], []⟩
      ⟨str "a", str "md", str "a.md", str "notes", none⟩).2.2 rfl rfl
      (fun r hr => absurd hr (List.not_mem_nil r))

/-- Every string deserializes without a SyntaxError under the stipulated
engine, whose compile oracle is true (exact at the patterns evaluated
concretely). -/
theorem deserializeRegExp_jsEngine_isSome (s : List Char) :
    (deserializeRegExp jsEngine s).isSome = true := by
  unfold deserializeRegExp
  cases findSlashMatch s with
  | none => rfl
  | some pf =>
    obtain ⟨pat, flags⟩ := pf
    rfl

/-- C10: the Add Regex button of the settings tab pushes exactly the
string slash-slash-g onto the ignore list; that string deserializes with
no notification to the empty pattern, which matches every input; and any
settings whose ignore list contains this entry make ignoreFile return true
for every file, markdown files included. -/
theorem addRegexInitialEntry_ignores_all
    (st : FilenameHeadingSyncPluginSettings) (f : TFile)
    (hmem : addRegexInitialEntry ∈ st.fileIgnoreRegexen) :
    addRegexInitialEntry = str "//g"
    ∧ deserializeRegExp jsEngine (str "//g") = some (⟨[], ['g']⟩, 0)
    ∧ (∀ s, jsEngine.hasMatch ⟨[], ['g']⟩ s = true)
    ∧ ignoreFile jsEngine st f = some true := by
  refine ⟨rfl, by decide, fun s => rfl, ?_⟩
  have hmr : matchesIgnoreRegex jsEngine f.path st.fileIgnoreRegexen
      = some true := by
    apply matchesIgnoreRegex_true_of_mem jsEngine f.path st.fileIgnoreRegexen
      addRegexInitialEntry ⟨[], ['g']⟩ 0
    · intro x _
      exact deserializeRegExp_jsEngine_isSome x
    · exact hmem
    · decide
    · rfl
  by_cases hext : f.extension ≠ str "md" ∧ f.extension ≠ str "markdown"
  · unfold ignoreFile
    rw [if_pos hext]
  · unfold ignoreFile
    rw [if_neg hext]
    cases hfm : f.frontmatterKeys with
    | none =>
      simp only [hfm]
      exact hmr
    | some keys =>
      simp only [hfm]
      by_cases hex : keys.contains excalidrawKey = true
      · rw [if_pos hex]
      · rw [if_neg hex]
        by_cases hkb : keys.contains kanbanKey = true
        · rw [if_pos hkb]
        · rw [if_neg hkb]
          exact hmr

/-- Witness for C10: with the freshly pushed entry as the only ignore
pattern, an ordinary markdown file is ignored. -/
theorem addRegexInitialEntry_ignores_all_witness :
    addRegexInitialEntry ∈ ([str "//g"] : List (List Char))
    ∧ ignoreFile jsEngine ⟨[], [str "//g"]⟩
        ⟨str "note", str "md", str "note.md", str "notes", none⟩ = some true := by
  refine ⟨by decide, ?_⟩
  exact (addRegexInitialEntry_ignores_all ⟨[], [str "//g"]⟩
    ⟨str "note", str "md", str "note.md", str "notes", none⟩
    (by decide)).2.2.2
